import Mathlib

/-!
Verification of the envelope-encryption and ownership-scoped file custody
subsystem of the CipherAI-SecureCloud backend.

The Python source is shallowly embedded:
* filenames are `List Char` (Python `str` is a sequence of code points);
* byte blobs are `List Nat` (each entry a byte value);
* the filesystem and the document store are explicit function arguments;
* external library primitives (the AES block permutation, RSA-OAEP
  wrapping, base64) are parameters of the model, since they are not code
  of this repository; everything the repository itself does (PKCS#7
  padding structure, CBC chaining, IV framing, filename sanitization,
  key lifecycle, authorization) is embedded concretely.
-/

namespace CipherAI

/-- Error outcomes surfaced by the backend endpoints, one constructor per
distinct HTTPException site relevant to the claims. -/
inductive ApiError
  | unknownCategory        -- 400 "Unknown category"
  | filenameRequired       -- 400 "Filename is required" / "file_name is required"
  | filenameInvalid        -- 400 "Filename is not valid"
  | recordNotFound         -- 404 "File metadata not found for user"
  | blobNotFound           -- 404 "File not found" / "Encrypted file not found"
  | accessDenied           -- 403 "Access denied for requested file"
  | wrappedKeyUnavailable  -- 404 "Encrypted AES key not found"
  | storedKeyInvalid       -- 500 "Stored AES key is invalid"
  | keyRecoveryImpossible  -- 500 "Missing private key ... Cannot decrypt without it."
  | nameCollision          -- 409 "A file with this name already exists."
  deriving DecidableEq, Repr

/-- Decidable equality of `Except` results, so that endpoint outcomes on
concrete inputs can be checked by `decide`. -/
instance exceptDecEq {ε α : Type} [DecidableEq ε] [DecidableEq α] :
    DecidableEq (Except ε α) := fun x y =>
  match x, y with
  | .error a, .error b =>
    if h : a = b then isTrue (by rw [h])
    else isFalse (fun hc => h (Except.error.inj hc))
  | .error _, .ok _ => isFalse (fun hc => Except.noConfusion hc)
  | .ok _, .error _ => isFalse (fun hc => Except.noConfusion hc)
  | .ok a, .ok b =>
    if h : a = b then isTrue (by rw [h])
    else isFalse (fun hc => h (Except.ok.inj hc))

/-! ### Filename sanitization (`routes/files.py`, `sanitize_filename`)

`candidate = Path(filename).name` uses `pathlib` POSIX parsing: the path is
split on `/`, empty components and `.` components are dropped (while `..`
components are kept), and `name` is the last remaining component, or the
empty string when none remains. -/

/-- Split a character list on the `/` separator, keeping empty groups, as
Python path parsing first splits the raw string. -/
def splitOnSlash : List Char → List (List Char)
  | [] => [[]]
  | c :: rest =>
    if c = '/' then [] :: splitOnSlash rest
    else
      match splitOnSlash rest with
      | [] => [[c]]
      | g :: gs => (c :: g) :: gs

/-- The retained path components of `pathlib` parsing: empty and `.`
components are dropped. -/
def pathParts (cs : List Char) : List (List Char) :=
  (splitOnSlash cs).filter (fun p => !p.isEmpty && p ≠ ['.'])

/-- `Path(s).name`: the final retained component, or empty when none. -/
def pathName (cs : List Char) : List Char :=
  (pathParts cs).getLast?.getD []

/-- The character class `[A-Za-z0-9._-]` kept by the sanitizer's regex. -/
def allowedChar (c : Char) : Bool :=
  c.isAlpha || c.isDigit || c = '.' || c = '_' || c = '-'

/-- `re.sub(r"[^A-Za-z0-9._-]", "_", candidate)`. -/
def replaceDisallowed (cs : List Char) : List Char :=
  cs.map (fun c => if allowedChar c then c else '_')

/-- `sanitize_filename` from `routes/files.py`: reject the empty input,
take the base-name component, replace every disallowed character by `_`,
and reject an empty result. -/
def sanitize_filename (cs : List Char) : Except ApiError (List Char) :=
  if cs.isEmpty then .error .filenameRequired
  else
    let safe := replaceDisallowed (pathName cs)
    if safe.isEmpty then .error .filenameInvalid else .ok safe

/-- `Path(n).stem` on a bare name `n`: the name without its final suffix;
the suffix is present only when the last `.` occurs at an index `i` with
`0 < i < n.length - 1`. -/
def pathStem (n : List Char) : List Char :=
  match n.reverse.indexOf? '.' with
  | none => n
  | some j =>
    let i := n.length - 1 - j
    if 0 < i ∧ i < n.length - 1 then n.take i else n

/-! ### Envelope cipher (`encrypt_file.py` / `decrypt_file.py`)

The repository composes library primitives: `padding.PKCS7(128)`,
`Cipher(algorithms.AES(key), modes.CBC(iv))`, and RSA-OAEP/SHA-256 key
wrapping.  PKCS#7 padding and CBC chaining are specified byte-for-byte and
embedded concretely; the AES block permutation and the RSA-OAEP wrap are
external library primitives and appear as parameters. -/

/-- PKCS#7 padding at block size 128 bits: append `k` copies of the byte
`k`, where `k = 16 - len % 16` (so `1 ≤ k ≤ 16`). -/
def pkcs7pad (bs : List Nat) : List Nat :=
  let k := 16 - bs.length % 16
  bs ++ List.replicate k k

/-- PKCS#7 unpadding at block size 128 bits, as validated by the library
unpadder: the data must be a positive multiple of 16 bytes, the final byte
`k` must satisfy `1 ≤ k ≤ 16`, and the last `k` bytes must all equal `k`;
any violation is a padding error (`none`). -/
def pkcs7unpad (bs : List Nat) : Option (List Nat) :=
  if bs.length % 16 = 0 ∧ bs.length ≠ 0 ∧ 1 ≤ bs.getLast?.getD 0 ∧
      bs.getLast?.getD 0 ≤ 16 ∧
      (bs.drop (bs.length - bs.getLast?.getD 0)).all
        (fun b => b = bs.getLast?.getD 0) then
    some (bs.take (bs.length - bs.getLast?.getD 0))
  else none

/-- Split a byte list into consecutive 16-byte blocks (the AES block
structure of the CBC mode of operation). -/
def chunks16 : List Nat → List (List Nat)
  | [] => []
  | b :: rest => ((b :: rest).take 16) :: chunks16 ((b :: rest).drop 16)
termination_by l => l.length
decreasing_by simp [List.length_drop]; omega

/-- Bytewise exclusive or of two equal-length byte lists. -/
def zipXor (a b : List Nat) : List Nat :=
  List.zipWith (fun x y => x ^^^ y) a b

/-- CBC encryption over 16-byte blocks: each plaintext block is xored with
the previous ciphertext block (initially the IV) and passed through the
block permutation. -/
def cbcEnc (encB : List Nat → List Nat) : List Nat → List (List Nat) → List (List Nat)
  | _, [] => []
  | prev, b :: rest =>
    let c := encB (zipXor b prev)
    c :: cbcEnc encB c rest

/-- CBC decryption over 16-byte blocks: each ciphertext block is inverted
through the block permutation and xored with the previous ciphertext block
(initially the IV). -/
def cbcDec (decB : List Nat → List Nat) : List Nat → List (List Nat) → List (List Nat)
  | _, [] => []
  | prev, c :: rest => zipXor (decB c) prev :: cbcDec decB c rest

/-- The external cryptographic library primitives used by the repository:
the AES-256 block permutation keyed by the raw AES key, and RSA-OAEP
(MGF1, SHA-256, empty label) key wrapping under the fixed server keypair.
Wrapping and unwrapping are fallible (corrupt PEM, size or padding
failures raise in the library). -/
structure CipherPrimitives where
  blockEnc : List Nat → List Nat → List Nat
  blockDec : List Nat → List Nat → List Nat
  rsaWrap : List Nat → Except Unit (List Nat)
  rsaUnwrap : List Nat → Except Unit (List Nat)

/-- `secrets.token_bytes(n)`: `n` bytes drawn from a random source,
modelled as the first `n` outputs of a supplied byte stream. -/
def token_bytes (rng : Nat → Nat) (n : Nat) : List Nat :=
  (List.range n).map rng

/-- The ciphertext blob written by `encrypt_file`: the IV followed by the
CBC encryption of the PKCS#7-padded plaintext (source line
`output_path.write_bytes(iv + encrypted_data)`). -/
def encryptBlob (P : CipherPrimitives) (aesKey iv data : List Nat) : List Nat :=
  iv ++ (cbcEnc (P.blockEnc aesKey) iv (chunks16 (pkcs7pad data))).flatten

/-- The on-disk artifact pair produced by one `encrypt_file` call. -/
structure ArtifactFS where
  ciphertextBlob : Option (List Nat)
  wrappedKeyBlob : Option (List Nat)
  deriving DecidableEq, Repr

/-- `encrypt_file` from `encrypt_file.py`, given the freshly drawn AES key
and IV: pad, CBC-encrypt, write `iv ++ ciphertext` to the output path,
then load the public key, wrap the AES key with RSA-OAEP, and write the
wrapped key.  The returned flag records whether the call succeeded; on a
wrap failure the exception propagates after the ciphertext write. -/
def encrypt_file (P : CipherPrimitives) (aesKey iv data : List Nat)
    (fs : ArtifactFS) : ArtifactFS × Bool :=
  let fs1 := { fs with ciphertextBlob := some (encryptBlob P aesKey iv data) }
  match P.rsaWrap aesKey with
  | .error _ => (fs1, false)
  | .ok w => ({ fs1 with wrappedKeyBlob := some w }, true)

/-- `encrypt_file` including the key and IV generation of source lines
`aes_key = token_bytes(32)` and `iv = token_bytes(16)`. -/
def encrypt_file_full (P : CipherPrimitives) (rngKey rngIV : Nat → Nat)
    (data : List Nat) (fs : ArtifactFS) : ArtifactFS × Bool :=
  encrypt_file P (token_bytes rngKey 32) (token_bytes rngIV 16) data fs

/-- The AES stage of `decrypt_file`: split the blob into its first 16
bytes (IV) and remainder (ciphertext), CBC-decrypt (the library finalizer
fails unless the ciphertext is block-aligned), then PKCS#7-unpad. -/
def decryptBlob (P : CipherPrimitives) (aesKey blob : List Nat) : Option (List Nat) :=
  let iv := blob.take 16
  let ct := blob.drop 16
  if ct.length % 16 = 0 then
    pkcs7unpad ((cbcDec (P.blockDec aesKey) iv (chunks16 ct)).flatten)
  else none

/-- `decrypt_file` from `decrypt_file.py`: unwrap the AES key with
RSA-OAEP under the private key, recover the IV and ciphertext from the
blob, CBC-decrypt and unpad, and only then write the plaintext to the
output path.  `out` is the prior content of the output path; the flag
records success. -/
def decrypt_file (P : CipherPrimitives) (blob wrappedKey : List Nat)
    (out : Option (List Nat)) : Option (List Nat) × Bool :=
  match P.rsaUnwrap wrappedKey with
  | .error _ => (out, false)
  | .ok aesKey =>
    match decryptBlob P aesKey blob with
    | none => (out, false)
    | some data => (some data, true)

/-! ### RSA keypair lifecycle (`core/crypto.py`, `ensure_rsa_keys`)

Key material is opaque library data distinguished by the parameters of
its generation; deriving the public half (`private_key.public_key()`)
carries the same parameters. -/

/-- An RSA private key as produced by
`rsa.generate_private_key(public_exponent, key_size)`: its generation
parameters plus an opaque seed distinguishing independently drawn keys. -/
structure RSAPrivateKey where
  keySize : Nat
  publicExponent : Nat
  seed : Nat
  deriving DecidableEq, Repr

/-- The public half of an RSA keypair. -/
structure RSAPublicKey where
  keySize : Nat
  publicExponent : Nat
  seed : Nat
  deriving DecidableEq, Repr

/-- `private_key.public_key()`: the public half matching a private key. -/
def derivePublic (p : RSAPrivateKey) : RSAPublicKey :=
  ⟨p.keySize, p.publicExponent, p.seed⟩

/-- `rsa.generate_private_key(public_exponent=e, key_size=n)` drawing the
fresh randomness `seed`. -/
def generate_private_key (e n seed : Nat) : RSAPrivateKey :=
  ⟨n, e, seed⟩

/-- The two key files at `keys/public.pem` and `keys/private.pem`. -/
structure KeyFS where
  publicKey : Option RSAPublicKey
  privateKey : Option RSAPrivateKey
  deriving DecidableEq, Repr

/-- A keypair state is consistent when both halves are present and the
public half is the one derived from the private half. -/
def keysConsistent (fs : KeyFS) : Prop :=
  ∃ p, fs.privateKey = some p ∧ fs.publicKey = some (derivePublic p)

/-- `ensure_rsa_keys` from `core/crypto.py`: if the private key file
exists, derive and write the public key when it is missing and return;
otherwise fail when only the public key exists; otherwise generate and
persist a fresh 2048-bit pair with public exponent 65537 (`seed` is the
randomness drawn by that generation). -/
def ensure_rsa_keys (fs : KeyFS) (seed : Nat) : Except ApiError KeyFS :=
  match fs.privateKey with
  | some priv =>
    if fs.publicKey.isNone then
      .ok { fs with publicKey := some (derivePublic priv) }
    else .ok fs
  | none =>
    if fs.publicKey.isSome then .error .keyRecoveryImpossible
    else
      let priv := generate_private_key 65537 2048 seed
      .ok { publicKey := some (derivePublic priv), privateKey := some priv }

/-! ### Document store and upload (`routes/files.py`)

A file-ownership record is stored under the document id
`"<uid>:<sanitized name>"`; the store is modelled as a function from the
two id components to an optional record. -/

/-- The fields of a `user_files` document that the download and decrypt
endpoints read.  `file_name` and `filename` are kept separately because
the code falls back from one to the other; `aes_key` is the
base64-encoded wrapped AES key persisted by the encrypt endpoint. -/
structure FileDoc where
  file_name : Option (List Char)
  filename : Option (List Char)
  aes_key : Option (List Char)
  deriving DecidableEq, Repr

/-- The document store restricted to the `user_files` collection:
`(uid, sanitized file name) ↦ document`. -/
def DocStore : Type := List Char → List Char → Option FileDoc

/-- Python `a or b` on optional strings: the second operand is taken when
the first is `None` or the empty string. -/
def pyOrStr (a b : Option (List Char)) : Option (List Char) :=
  match a with
  | some s => if s.isEmpty then b else some s
  | none => b

/-- Python truthiness of an optional string. -/
def truthyStr (a : Option (List Char)) : Bool :=
  match a with
  | some s => !s.isEmpty
  | none => false

/-- The record-creation part of the upload endpoint: sanitize the name,
reject with 409 when a blob with that name already exists in the shared
uploads directory (for any owner), and otherwise create the blob and the
`uploaded` record under `"<uid>:<name>"`.  `uploadExists` is the
`destination.exists()` test. -/
def upload_file (uploadExists : List Char → Bool) (store : DocStore)
    (uid filename : List Char) :
    Except ApiError (DocStore × List Char) := do
  let safeName ← sanitize_filename filename
  if uploadExists safeName then throw .nameCollision
  let doc : FileDoc := ⟨some safeName, none, none⟩
  let store1 : DocStore := fun u n =>
    if u = uid ∧ n = safeName then some doc else store u n
  pure (store1, safeName)

/-! ### Download authorization (`routes/files.py`, `download_file`) -/

/-- The category names accepted by the download endpoint (the keys of its
`directories` dict). -/
def validCategory (category : List Char) : Bool :=
  category = "uploads".toList || category = "encrypted".toList ||
    category = "decrypted".toList

/-- The base record name the download endpoint looks up: for the
`encrypted` category a requested name ending in `.enc` is reduced to its
stem and re-sanitized; for `decrypted` the base name is re-sanitized;
otherwise the sanitized request is used as is. -/
def downloadBaseName (category safeName : List Char) :
    Except ApiError (List Char) :=
  if category = "encrypted".toList ∧ ".enc".toList <:+ safeName then
    sanitize_filename (pathStem safeName)
  else if category = "decrypted".toList then
    sanitize_filename (pathName safeName)
  else pure safeName

/-- The expected stored name for a category, recomputed from the owned
record: `file_name` (falling back to `filename`), with `.enc` appended
for the `encrypted` category when the owned name is truthy (Python
`f"{owned_name}.enc" if owned_name else None`). -/
def expectedName (category : List Char) (doc : FileDoc) : Option (List Char) :=
  let ownedName := pyOrStr doc.file_name doc.filename
  if category = "encrypted".toList then
    match ownedName with
    | some s => if s.isEmpty then none else some (s ++ ".enc".toList)
    | none => none
  else ownedName

/-- `download_file` from `routes/files.py`: validate the category,
sanitize the requested filename, reduce it to the base record name, look
up the requester's own record (404 when absent), recompute the expected
stored name and compare it with the sanitized request (403 on any
mismatch), and only then check blob existence (404 when absent).
`blobExists` is the `file_path.exists()` test per category. -/
def download_file (store : DocStore) (blobExists : List Char → List Char → Bool)
    (uid category filename : List Char) :
    Except ApiError (List Char × List Char) := do
  if ¬ validCategory category then throw .unknownCategory
  let safeName ← sanitize_filename filename
  let baseName ← downloadBaseName category safeName
  match store uid baseName with
  | none => throw .recordNotFound
  | some doc =>
    if expectedName category doc ≠ some safeName then throw .accessDenied
    if ¬ blobExists category safeName then throw .blobNotFound
    pure (category, safeName)

/-! ### Decrypt endpoint key resolution (`routes/files.py`,
`decrypt_endpoint`)

The endpoint is modelled through the `decrypt_file` call boundary: a
successful outcome carries the wrapped-key bytes that are handed to
`decrypt_file`, plus the repair write performed on the on-disk `.key`
blob; an error outcome means the request fails before any decryption is
attempted. -/

/-- The state of one decrypt request at the `decrypt_file` call boundary. -/
structure DecryptDispatch where
  keyBytes : List Nat
  keyFileWritten : Option (List Nat)
  deriving DecidableEq, Repr

/-- `decrypt_endpoint` from `routes/files.py`, up to the `decrypt_file`
call: ensure the RSA keys, validate and sanitize the requested name, look
up the requester's record, require the encrypted blob, then resolve the
wrapped AES key — from the on-disk `<name>.key` blob if present,
otherwise by base64-decoding the record's `aes_key` field and writing it
back to disk (500 when the stored value does not decode), and fail 404
when neither source provides it.  `b64decode` is the external
`base64.b64decode`; `keyFileOnDisk` maps a key-blob name to its bytes;
`encExists` is the encrypted-blob existence test. -/
def decrypt_endpoint (b64decode : List Char → Option (List Nat))
    (keys : KeyFS) (seed : Nat) (store : DocStore)
    (encExists : List Char → Bool) (keyFileOnDisk : List Char → Option (List Nat))
    (uid requestName : List Char) : Except ApiError DecryptDispatch := do
  let _ ← ensure_rsa_keys keys seed
  if requestName.all (fun c => c.isWhitespace) then throw .filenameRequired
  let baseName ← sanitize_filename requestName
  match store uid baseName with
  | none => throw .recordNotFound
  | some doc =>
    if ¬ encExists (baseName ++ ".enc".toList) then throw .blobNotFound
    let keyName := baseName ++ ".key".toList
    let storedKey := doc.aes_key
    let resolved : Except ApiError (Option (List Nat) × Option (List Nat)) :=
      match keyFileOnDisk keyName, truthyStr storedKey with
      | none, true =>
        match b64decode (storedKey.getD []) with
        | none => .error .storedKeyInvalid
        | some bytes => .ok (some bytes, some bytes)
      | k, _ => .ok (k, none)
    match resolved with
    | .error e => throw e
    | .ok (none, _) => throw .wrappedKeyUnavailable
    | .ok (some kb, written) => pure ⟨kb, written⟩

/-- An example document store: owner `ownerA` holds the record for
`report.pdf` (with its wrapped AES key persisted base64-encoded), and no
other record exists — the state reached after `ownerA` uploads and
encrypts `report.pdf` while `ownerB` owns nothing. -/
def storeOwnerA : DocStore := fun u n =>
  if u = "ownerA".toList ∧ n = "report.pdf".toList then
    some ⟨some "report.pdf".toList, none, some "QUJD".toList⟩
  else none

/-! ### Lemmas about sanitization -/

/-- Splitting a slash-free character list yields the single group holding
the whole list. -/
theorem splitOnSlash_of_no_slash (cs : List Char) (h : ∀ c ∈ cs, c ≠ '/') :
    splitOnSlash cs = [cs] := by
  induction cs with
  | nil => rfl
  | cons c rest ih =>
    have hc : c ≠ '/' := h c (List.mem_cons_self c rest)
    have hr : splitOnSlash rest = [rest] :=
      ih (fun x hx => h x (List.mem_cons_of_mem c hx))
    simp [splitOnSlash, hc, hr]

/-- Every character of a sanitized candidate lies in the allowed class. -/
theorem mem_replaceDisallowed_allowed (cs : List Char) (c : Char)
    (h : c ∈ replaceDisallowed cs) : allowedChar c = true := by
  rcases List.mem_map.mp h with ⟨a, _, ha⟩
  rw [← ha]
  by_cases hall : allowedChar a
  · simp [hall]
  · simp only [hall, if_false, Bool.false_eq_true]; decide

/-- The base-name component produced by path parsing is never the bare
`.` component (those components are dropped during parsing). -/
theorem pathName_ne_dot (cs : List Char) : pathName cs ≠ ['.'] := by
  unfold pathName
  cases h : (pathParts cs).getLast? with
  | none => simp
  | some a =>
    have ha : a ∈ pathParts cs := List.mem_of_mem_getLast? h
    have := (List.mem_filter.mp ha).2
    simp only [Bool.and_eq_true, decide_eq_true_eq] at this
    simpa using this.2

/-- If the sanitizer maps a candidate to the single character `.`, the
candidate was the single character `.` itself. -/
theorem replaceDisallowed_eq_dot (cs : List Char)
    (h : replaceDisallowed cs = ['.']) : cs = ['.'] := by
  unfold replaceDisallowed at h
  cases cs with
  | nil => simp at h
  | cons a rest =>
    cases rest with
    | cons b r => simp at h
    | nil =>
      simp only [List.map_cons, List.map_nil, List.cons.injEq, and_true] at h
      by_cases hall : allowedChar a
      · simp [hall] at h; simp [h]
      · simp [hall] at h

/-- Successful sanitization inverts to its components. -/
theorem sanitize_ok_iff (cs r : List Char) :
    sanitize_filename cs = .ok r ↔
      cs ≠ [] ∧ r = replaceDisallowed (pathName cs) ∧ r ≠ [] := by
  unfold sanitize_filename
  by_cases h0 : cs.isEmpty
  · simp [h0, List.isEmpty_iff.mp h0]
  · by_cases h1 : (replaceDisallowed (pathName cs)).isEmpty
    · simp only [h0, if_false, h1, if_true]
      constructor
      · intro h; cases h
      · rintro ⟨_, hr, hne⟩
        exact absurd (List.isEmpty_iff.mp (hr ▸ h1)) hne
    · simp only [h0, if_false, h1, if_true]
      constructor
      · intro h
        cases h
        exact ⟨fun hnil => h0 (by simp [hnil]),
          rfl, fun hnil => h1 (by simp [hnil])⟩
      · rintro ⟨_, hr, _⟩; simp [hr]

/-- C9 (confirmed): `sanitize_filename` is idempotent on every input on
which it succeeds. -/
theorem sanitize_filename_idempotent (cs r : List Char)
    (h : sanitize_filename cs = .ok r) : sanitize_filename r = .ok r := by
  rcases (sanitize_ok_iff cs r).mp h with ⟨_, hr, hne⟩
  have hall : ∀ c ∈ r, allowedChar c = true := fun c hc =>
    mem_replaceDisallowed_allowed _ c (hr ▸ hc)
  have hnoslash : ∀ c ∈ r, c ≠ '/' := by
    intro c hc hcs
    have := hall c hc
    simp [hcs, allowedChar] at this
  have hrdot : r ≠ ['.'] := by
    intro hdot
    exact pathName_ne_dot cs (replaceDisallowed_eq_dot _ (hr ▸ hdot))
  have hsplit : splitOnSlash r = [r] := splitOnSlash_of_no_slash r hnoslash
  have hparts : pathParts r = [r] := by
    simp [pathParts, hsplit, hne, hrdot]
  have hname : pathName r = r := by simp [pathName, hparts]
  have hfix : replaceDisallowed r = r := by
    unfold replaceDisallowed
    conv_rhs => rw [← List.map_id r]
    exact List.map_congr_left (fun c hc => by simp [hall c hc])
  exact (sanitize_ok_iff r r).mpr ⟨hne, by rw [hname, hfix], hne⟩

/-- C8 (counterexample): sanitizing `../../etc/passwd` does not flatten
the directory components into `etc_passwd`; it yields the base name
`passwd`. -/
theorem sanitize_traversal_not_flattened :
    sanitize_filename "../../etc/passwd".toList = .ok "passwd".toList ∧
      sanitize_filename "../../etc/passwd".toList ≠ .ok "etc_passwd".toList := by
  constructor
  · rfl
  · intro h
    have : "passwd".toList = "etc_passwd".toList := by
      have h' : sanitize_filename "../../etc/passwd".toList = .ok "passwd".toList := rfl
      rw [h'] at h
      exact Except.ok.inj h
    simp at this

/-- C8 (amended): sanitizing `../../etc/passwd` yields `passwd` — only
the base-name component survives, directory components are stripped — and
no path separator survives any successful sanitization. -/
theorem sanitize_traversal_contained :
    sanitize_filename "../../etc/passwd".toList = .ok "passwd".toList ∧
      ∀ cs r, sanitize_filename cs = .ok r → '/' ∉ r := by
  refine ⟨rfl, fun cs r h hmem => ?_⟩
  rcases (sanitize_ok_iff cs r).mp h with ⟨_, hr, _⟩
  have := mem_replaceDisallowed_allowed _ '/' (hr ▸ hmem)
  simp [allowedChar] at this

/-- Witness for the amended C8 theorem at the concrete input `a/b`. -/
theorem sanitize_traversal_contained_witness : '/' ∉ "b".toList :=
  sanitize_traversal_contained.2 "a/b".toList "b".toList rfl

/-- Witness for C9 at the concrete input `dir/file name.txt`. -/
theorem sanitize_filename_idempotent_witness :
    sanitize_filename "file_name.txt".toList = .ok "file_name.txt".toList :=
  sanitize_filename_idempotent "dir/file name.txt".toList
    "file_name.txt".toList rfl

/-! ### Theorems about the keypair lifecycle -/

/-- C2 (counterexample): when both key files already exist,
`ensure_rsa_keys` is a no-op and succeeds even on a mismatched pair, so a
successful return does not establish consistency for an arbitrary
pre-existing state. -/
theorem ensure_rsa_keys_no_consistency_check :
    ensure_rsa_keys ⟨some ⟨2048, 65537, 1⟩, some ⟨2048, 65537, 0⟩⟩ 5 =
        .ok ⟨some ⟨2048, 65537, 1⟩, some ⟨2048, 65537, 0⟩⟩ ∧
      ¬ keysConsistent ⟨some ⟨2048, 65537, 1⟩, some ⟨2048, 65537, 0⟩⟩ := by
  constructor
  · rfl
  · rintro ⟨p, hp, hq⟩
    cases hp
    simp [derivePublic] at hq

/-- C2 (amended): `ensure_rsa_keys` satisfies the four-case contract —
no-op when both key files exist; derive-and-persist repair when only the
private key exists; `KeyRecoveryImpossible` failure, generating nothing,
when only the public key exists; fresh 2048-bit, exponent-65537 pair when
neither exists.  After any successful return both keys exist, and they
are consistent provided any pre-existing complete pair was consistent
(the both-exist case is a no-op that does not re-verify consistency). -/
theorem ensure_rsa_keys_contract (fs : KeyFS) (seed : Nat) :
    (fs.privateKey.isSome → fs.publicKey.isSome →
      ensure_rsa_keys fs seed = .ok fs) ∧
    (∀ p, fs.privateKey = some p → fs.publicKey = none →
      ensure_rsa_keys fs seed = .ok ⟨some (derivePublic p), some p⟩) ∧
    (fs.privateKey = none → fs.publicKey.isSome →
      ensure_rsa_keys fs seed = .error .keyRecoveryImpossible) ∧
    (fs.privateKey = none → fs.publicKey = none →
      ensure_rsa_keys fs seed =
        .ok ⟨some (derivePublic (generate_private_key 65537 2048 seed)),
          some (generate_private_key 65537 2048 seed)⟩ ∧
      (generate_private_key 65537 2048 seed).publicExponent = 65537 ∧
      (generate_private_key 65537 2048 seed).keySize = 2048) ∧
    (∀ fs', ensure_rsa_keys fs seed = .ok fs' →
      fs'.privateKey.isSome ∧ fs'.publicKey.isSome ∧
      ((keysConsistent fs ∨ fs.publicKey = none ∨ fs.privateKey = none) →
        keysConsistent fs')) := by
  rcases fs with ⟨pub, priv⟩
  refine ⟨?_, ?_, ?_, ?_, ?_⟩
  · intro hp hq
    cases priv with
    | none => simp at hp
    | some p =>
      cases pub with
      | none => simp at hq
      | some q => simp [ensure_rsa_keys]
  · rintro p hp hq
    cases hp
    cases hq
    simp [ensure_rsa_keys]
  · intro hp hq
    cases hp
    cases pub with
    | none => simp at hq
    | some q => simp [ensure_rsa_keys]
  · intro hp hq
    cases hp
    cases hq
    exact ⟨rfl, rfl, rfl⟩
  · intro fs' h
    cases priv with
    | some p =>
      cases pub with
      | none =>
        simp only [ensure_rsa_keys, Option.isNone_none, if_true] at h
        cases h
        exact ⟨rfl, rfl, fun _ => ⟨p, rfl, rfl⟩⟩
      | some q =>
        simp only [ensure_rsa_keys, Option.isNone_some, if_false] at h
        cases h
        refine ⟨rfl, rfl, fun hc => ?_⟩
        rcases hc with hc | hc | hc
        · exact hc
        · simp at hc
        · simp at hc
    | none =>
      cases pub with
      | some q => simp [ensure_rsa_keys] at h
      | none =>
        simp only [ensure_rsa_keys, Option.isSome_none, if_false] at h
        cases h
        exact ⟨rfl, rfl, fun _ => ⟨generate_private_key 65537 2048 seed, rfl, rfl⟩⟩

/-- Witness for the amended C2 theorem: from the empty key directory one
call generates and persists the fresh 2048-bit pair. -/
theorem ensure_rsa_keys_contract_witness :
    ensure_rsa_keys ⟨none, none⟩ 0 =
        .ok ⟨some (derivePublic (generate_private_key 65537 2048 0)),
          some (generate_private_key 65537 2048 0)⟩ ∧
      (generate_private_key 65537 2048 0).publicExponent = 65537 ∧
      (generate_private_key 65537 2048 0).keySize = 2048 :=
  (ensure_rsa_keys_contract ⟨none, none⟩ 0).2.2.2.1 rfl rfl

/-! ### Theorems about download authorization -/

/-- C4 (confirmed): whenever the requester's own record is found but the
expected stored name recomputed from it differs from the sanitized
requested name, the download endpoint answers `AccessDenied`, for every
possible blob filesystem — the authorization check precedes the
blob-existence check, so the denial never depends on blob presence. -/
theorem download_denial_precedes_existence
    (store : DocStore) (uid category filename safeName baseName : List Char)
    (doc : FileDoc)
    (hcat : validCategory category = true)
    (hsan : sanitize_filename filename = .ok safeName)
    (hbase : downloadBaseName category safeName = .ok baseName)
    (hdoc : store uid baseName = some doc)
    (hmis : expectedName category doc ≠ some safeName) :
    ∀ blobExists, download_file store blobExists uid category filename =
      .error .accessDenied := by
  intro blobs
  unfold download_file
  simp [hcat, hsan, hbase, hdoc, hmis, Bind.bind, Except.bind, throw,
    throwThe, MonadExceptOf.throw, pure, Except.pure]

/-- Witness for C4: `ownerA` requesting the `encrypted` category under
the bare name `report.pdf` (the expected stored name is
`report.pdf.enc`) is denied whether or not the blob exists. -/
theorem download_denial_precedes_existence_witness :
    download_file storeOwnerA (fun _ _ => true) "ownerA".toList
        "encrypted".toList "report.pdf".toList = .error .accessDenied ∧
      download_file storeOwnerA (fun _ _ => false) "ownerA".toList
        "encrypted".toList "report.pdf".toList = .error .accessDenied :=
  ⟨download_denial_precedes_existence storeOwnerA "ownerA".toList
      "encrypted".toList "report.pdf".toList "report.pdf".toList
      "report.pdf".toList ⟨some "report.pdf".toList, none, some "QUJD".toList⟩
      (by decide) (by decide) (by decide) (by decide) (by decide) _,
    download_denial_precedes_existence storeOwnerA "ownerA".toList
      "encrypted".toList "report.pdf".toList "report.pdf".toList
      "report.pdf".toList ⟨some "report.pdf".toList, none, some "QUJD".toList⟩
      (by decide) (by decide) (by decide) (by decide) (by decide) _⟩

/-- C3 (counterexample): in the state reached by the colliding-upload
scenario — `ownerA` owns the `report.pdf` record, the encrypted blob
`report.pdf.enc` exists on disk, and `ownerB` holds no record because the
shared uploads directory rejected the second upload — `ownerB`'s download
request for `ownerA`'s encrypted artifact fails with the 404
record-not-found error, not with `AccessDenied`. -/
theorem cross_owner_download_not_access_denied :
    download_file storeOwnerA (fun _ _ => true) "ownerB".toList
        "encrypted".toList "report.pdf.enc".toList = .error .recordNotFound ∧
      ApiError.recordNotFound ≠ ApiError.accessDenied := by
  exact ⟨by decide, by decide⟩

/-- C3 (amended): for two owners whose uploads sanitize to the same
filename, the second upload is rejected with the 409 name collision, so
the second owner holds no record and their download request for the first
owner's encrypted artifact fails — with `RecordNotFound`, not
`AccessDenied` — even though a blob with that derived name exists on
disk; and no code path lets a requester read another owner's record: the
download result depends only on the rows of the document store held under
the requester's own owner id. -/
theorem download_ownership_isolation :
    upload_file (fun _ => true) storeOwnerA "ownerB".toList
        "report.pdf".toList = .error .nameCollision ∧
      download_file storeOwnerA (fun _ _ => true) "ownerB".toList
        "encrypted".toList "report.pdf.enc".toList = .error .recordNotFound ∧
      ∀ (s1 s2 : DocStore) (blobs : List Char → List Char → Bool)
        (uid cat fn : List Char), (∀ n, s1 uid n = s2 uid n) →
        download_file s1 blobs uid cat fn = download_file s2 blobs uid cat fn := by
  refine ⟨rfl, by decide, ?_⟩
  intro s1 s2 blobs uid cat fn h
  unfold download_file
  by_cases hv : validCategory cat
  · cases hsan : sanitize_filename fn with
    | error e => simp [hv, hsan, Bind.bind, Except.bind]
    | ok safe =>
      cases hbase : downloadBaseName cat safe with
      | error e => simp [hv, hsan, hbase, Bind.bind, Except.bind]
      | ok base => simp [hv, hsan, hbase, h base, Bind.bind, Except.bind]
  · simp [hv, Bind.bind, Except.bind, throw, throwThe, MonadExceptOf.throw]

/-- Witness for the amended C3 theorem: the download answer for `ownerA`
is unchanged when every other owner's records are replaced. -/
theorem download_ownership_isolation_witness :
    download_file storeOwnerA (fun _ _ => true) "ownerA".toList
        "encrypted".toList "report.pdf.enc".toList =
      download_file
        (fun u n => if u = "ownerA".toList then storeOwnerA u n
          else some ⟨some "x".toList, none, none⟩)
        (fun _ _ => true) "ownerA".toList "encrypted".toList
        "report.pdf.enc".toList :=
  download_ownership_isolation.2.2 storeOwnerA
    (fun u n => if u = "ownerA".toList then storeOwnerA u n
      else some ⟨some "x".toList, none, none⟩)
    (fun _ _ => true) "ownerA".toList "encrypted".toList
    "report.pdf.enc".toList (fun n => by simp)

/-! ### Theorems about the decrypt endpoint's wrapped-key resolution -/

/-- C6 (confirmed): for a decrypt request with a valid owned record and
an existing encrypted blob, the wrapped AES key handed to the decryption
step is resolved first from the on-disk `<name>.key` blob; if that file
is absent it is recovered by base64-decoding the record's persisted
wrapped-key field (and written back to disk); and if neither source
provides it, the request fails with the 404 wrapped-key-unavailable error
and no decryption is attempted (the request never reaches the
`decrypt_file` call). -/
theorem decrypt_wrapped_key_resolution
    (b64 : List Char → Option (List Nat)) (keys kfs : KeyFS) (seed : Nat)
    (store : DocStore) (encExists : List Char → Bool)
    (keyFile : List Char → Option (List Nat))
    (uid requestName baseName : List Char) (doc : FileDoc)
    (hkeys : ensure_rsa_keys keys seed = .ok kfs)
    (hws : requestName.all (fun c => c.isWhitespace) = false)
    (hsan : sanitize_filename requestName = .ok baseName)
    (hdoc : store uid baseName = some doc)
    (henc : encExists (baseName ++ ".enc".toList) = true) :
    (∀ kb, keyFile (baseName ++ ".key".toList) = some kb →
      decrypt_endpoint b64 keys seed store encExists keyFile uid requestName =
        .ok ⟨kb, none⟩) ∧
    (keyFile (baseName ++ ".key".toList) = none →
      truthyStr doc.aes_key = true →
      ∀ bytes, b64 (doc.aes_key.getD []) = some bytes →
      decrypt_endpoint b64 keys seed store encExists keyFile uid requestName =
        .ok ⟨bytes, some bytes⟩) ∧
    (keyFile (baseName ++ ".key".toList) = none →
      truthyStr doc.aes_key = false →
      decrypt_endpoint b64 keys seed store encExists keyFile uid requestName =
        .error .wrappedKeyUnavailable) := by
  have henc' : encExists (baseName ++ ['.', 'e', 'n', 'c']) = true := henc
  refine ⟨?_, ?_, ?_⟩
  · intro kb hk
    have hk' : keyFile (baseName ++ ['.', 'k', 'e', 'y']) = some kb := hk
    unfold decrypt_endpoint
    simp [hkeys, hws, hsan, hdoc, henc', hk', Bind.bind, Except.bind, pure,
      Except.pure]
  · intro hk ht bytes hb
    have hk' : keyFile (baseName ++ ['.', 'k', 'e', 'y']) = none := hk
    unfold decrypt_endpoint
    simp [hkeys, hws, hsan, hdoc, henc', hk', ht, hb, Bind.bind, Except.bind,
      pure, Except.pure]
  · intro hk ht
    have hk' : keyFile (baseName ++ ['.', 'k', 'e', 'y']) = none := hk
    unfold decrypt_endpoint
    simp [hkeys, hws, hsan, hdoc, henc', hk', ht, Bind.bind, Except.bind, pure,
      Except.pure, throw, throwThe, MonadExceptOf.throw]

/-- Witness for C6: with the on-disk key blob absent, `ownerA`'s stored
wrapped key `QUJD` is recovered from the record by base64-decoding. -/
theorem decrypt_wrapped_key_resolution_witness :
    decrypt_endpoint
        (fun s => if s = "QUJD".toList then some [65, 66, 67] else none)
        ⟨none, none⟩ 0 storeOwnerA (fun _ => true) (fun _ => none)
        "ownerA".toList "report.pdf".toList = .ok ⟨[65, 66, 67], some [65, 66, 67]⟩ :=
  (decrypt_wrapped_key_resolution
    (fun s => if s = "QUJD".toList then some [65, 66, 67] else none)
    ⟨none, none⟩
    ⟨some (derivePublic (generate_private_key 65537 2048 0)),
      some (generate_private_key 65537 2048 0)⟩ 0
    storeOwnerA (fun _ => true) (fun _ => none) "ownerA".toList
    "report.pdf".toList "report.pdf".toList
    ⟨some "report.pdf".toList, none, some "QUJD".toList⟩
    (by decide) (by decide) (by decide) (by decide) (by decide)).2.1
    rfl (by decide) [65, 66, 67] (by decide)

/-- C10 (confirmed): when the on-disk key blob is absent but the record's
stored wrapped-key field is present, the endpoint writes the
base64-decoded wrapped key back to the encrypted directory as
`<name>.key` (a durable repair beyond returning the plaintext); and when
the stored value does not base64-decode, the request fails before any
decryption with the distinct 500 stored-key-invalid error, not with
`WrappedKeyUnavailable`. -/
theorem decrypt_stored_key_repair
    (b64 : List Char → Option (List Nat)) (keys kfs : KeyFS) (seed : Nat)
    (store : DocStore) (encExists : List Char → Bool)
    (keyFile : List Char → Option (List Nat))
    (uid requestName baseName : List Char) (doc : FileDoc)
    (hkeys : ensure_rsa_keys keys seed = .ok kfs)
    (hws : requestName.all (fun c => c.isWhitespace) = false)
    (hsan : sanitize_filename requestName = .ok baseName)
    (hdoc : store uid baseName = some doc)
    (henc : encExists (baseName ++ ".enc".toList) = true)
    (hkf : keyFile (baseName ++ ".key".toList) = none)
    (htr : truthyStr doc.aes_key = true) :
    (∀ bytes, b64 (doc.aes_key.getD []) = some bytes →
      decrypt_endpoint b64 keys seed store encExists keyFile uid requestName =
        .ok ⟨bytes, some bytes⟩) ∧
    (b64 (doc.aes_key.getD []) = none →
      decrypt_endpoint b64 keys seed store encExists keyFile uid requestName =
        .error .storedKeyInvalid) ∧
    ApiError.storedKeyInvalid ≠ ApiError.wrappedKeyUnavailable := by
  have henc' : encExists (baseName ++ ['.', 'e', 'n', 'c']) = true := henc
  have hkf' : keyFile (baseName ++ ['.', 'k', 'e', 'y']) = none := hkf
  refine ⟨?_, ?_, by decide⟩
  · intro bytes hb
    unfold decrypt_endpoint
    simp [hkeys, hws, hsan, hdoc, henc', hkf', htr, hb, Bind.bind, Except.bind,
      pure, Except.pure]
  · intro hb
    unfold decrypt_endpoint
    simp [hkeys, hws, hsan, hdoc, henc', hkf', htr, hb, Bind.bind, Except.bind,
      pure, Except.pure, throw, throwThe, MonadExceptOf.throw]

/-- Witness for C10: a stored wrapped-key field that does not
base64-decode fails the request with the 500 stored-key-invalid error. -/
theorem decrypt_stored_key_repair_witness :
    decrypt_endpoint (fun _ => none) ⟨none, none⟩ 0 storeOwnerA
        (fun _ => true) (fun _ => none) "ownerA".toList "report.pdf".toList =
      .error .storedKeyInvalid :=
  (decrypt_stored_key_repair (fun _ => none) ⟨none, none⟩
    ⟨some (derivePublic (generate_private_key 65537 2048 0)),
      some (generate_private_key 65537 2048 0)⟩ 0
    storeOwnerA (fun _ => true) (fun _ => none) "ownerA".toList
    "report.pdf".toList "report.pdf".toList
    ⟨some "report.pdf".toList, none, some "QUJD".toList⟩
    (by decide) (by decide) (by decide) (by decide) (by decide) rfl
    (by decide)).2.1 rfl

/-! ### Lemmas about the envelope cipher -/

/-- PKCS#7 padding always produces a multiple of the block size. -/
theorem pkcs7pad_length_mod (bs : List Nat) : (pkcs7pad bs).length % 16 = 0 := by
  unfold pkcs7pad
  have h : bs.length % 16 < 16 := Nat.mod_lt _ (by omega)
  simp only [List.length_append, List.length_replicate]
  omega

/-- Reassembling the 16-byte blocks of a byte list restores it. -/
theorem chunks16_flatten (bs : List Nat) : (chunks16 bs).flatten = bs := by
  induction bs using chunks16.induct with
  | case1 => simp [chunks16]
  | case2 b rest ih =>
    rw [chunks16]
    simp only [List.flatten_cons, ih, List.take_append_drop]

/-- Every block of a block-aligned byte list has exactly 16 bytes. -/
theorem chunks16_block_length (bs : List Nat) (h : bs.length % 16 = 0) :
    ∀ b ∈ chunks16 bs, b.length = 16 := by
  induction bs using chunks16.induct with
  | case1 => simp [chunks16]
  | case2 b rest ih =>
    rw [chunks16]
    intro c hc
    have hlen : (b :: rest).length % 16 = 0 := h
    have hge : 16 ≤ (b :: rest).length := by
      simp only [List.length_cons] at hlen ⊢
      omega
    rcases List.mem_cons.mp hc with hc | hc
    · rw [hc]
      simp only [List.length_take]
      omega
    · refine ih ?_ c hc
      simp only [List.length_drop]
      omega

/-- Chunking the concatenation of 16-byte blocks restores the blocks. -/
theorem chunks16_of_flatten (cs : List (List Nat))
    (h : ∀ c ∈ cs, c.length = 16) : chunks16 cs.flatten = cs := by
  induction cs with
  | nil => simp [chunks16]
  | cons c rest ih =>
    have hc : c.length = 16 := h c (List.mem_cons_self c rest)
    have hr : ∀ x ∈ rest, x.length = 16 :=
      fun x hx => h x (List.mem_cons_of_mem c hx)
    cases c with
    | nil => simp at hc
    | cons x xs =>
      simp only [List.flatten_cons, List.cons_append]
      rw [chunks16]
      have htake : ((x :: xs) ++ rest.flatten).take 16 = x :: xs := by
        rw [show (16 : Nat) = (x :: xs).length from hc.symm]
        exact List.take_left _ _
      have hdrop : ((x :: xs) ++ rest.flatten).drop 16 = rest.flatten := by
        rw [show (16 : Nat) = (x :: xs).length from hc.symm]
        exact List.drop_left _ _
      simp only [List.cons_append] at htake hdrop
      rw [htake, hdrop, ih hr]

/-- Xoring twice with the same equal-length mask is the identity. -/
theorem zipXor_zipXor (a p : List Nat) (h : a.length = p.length) :
    zipXor (zipXor a p) p = a := by
  induction a generalizing p with
  | nil => simp [zipXor]
  | cons x xs ih =>
    cases p with
    | nil => simp at h
    | cons y ys =>
      simp only [zipXor, List.zipWith_cons_cons] at ih ⊢
      rw [Nat.xor_cancel_right]
      have : xs.length = ys.length := by
        simp only [List.length_cons] at h
        omega
      exact congrArg _ (ih ys this)

/-- The length of a bytewise xor. -/
theorem zipXor_length (a b : List Nat) :
    (zipXor a b).length = min a.length b.length := by
  simp [zipXor]

/-- Every ciphertext block produced by CBC encryption of 16-byte blocks
under a length-preserving block permutation has 16 bytes. -/
theorem cbcEnc_block_length (encB : List Nat → List Nat)
    (hLen : ∀ b, b.length = 16 → (encB b).length = 16)
    (blocks : List (List Nat)) :
    ∀ prev, prev.length = 16 → (∀ b ∈ blocks, b.length = 16) →
      ∀ c ∈ cbcEnc encB prev blocks, c.length = 16 := by
  induction blocks with
  | nil => intro prev _ _ c hc; simp [cbcEnc] at hc
  | cons b rest ih =>
    intro prev hprev hall c hc
    have hb : b.length = 16 := hall b (List.mem_cons_self b rest)
    have hx : (encB (zipXor b prev)).length = 16 := by
      refine hLen _ ?_
      rw [zipXor_length, hb, hprev]
      simp
    simp only [cbcEnc] at hc
    rcases List.mem_cons.mp hc with hc | hc
    · rw [hc]; exact hx
    · exact ih (encB (zipXor b prev)) hx
        (fun x hxm => hall x (List.mem_cons_of_mem b hxm)) c hc

/-- CBC decryption inverts CBC encryption blockwise when the block
permutation is inverted by its partner on 16-byte blocks. -/
theorem cbcDec_cbcEnc (encB decB : List Nat → List Nat)
    (hLen : ∀ b, b.length = 16 → (encB b).length = 16)
    (hInv : ∀ b, b.length = 16 → decB (encB b) = b)
    (blocks : List (List Nat)) :
    ∀ prev, prev.length = 16 → (∀ b ∈ blocks, b.length = 16) →
      cbcDec decB prev (cbcEnc encB prev blocks) = blocks := by
  induction blocks with
  | nil => intro prev _ _; simp [cbcEnc, cbcDec]
  | cons b rest ih =>
    intro prev hprev hall
    have hb : b.length = 16 := hall b (List.mem_cons_self b rest)
    have hxlen : (zipXor b prev).length = 16 := by
      rw [zipXor_length, hb, hprev]
      simp
    have hclen : (encB (zipXor b prev)).length = 16 := hLen _ hxlen
    simp only [cbcEnc, cbcDec, List.cons.injEq]
    constructor
    · rw [hInv _ hxlen]
      exact zipXor_zipXor b prev (by omega)
    · exact ih _ hclen (fun x hx => hall x (List.mem_cons_of_mem b hx))

/-- The total length of a list of 16-byte blocks is a multiple of 16. -/
theorem flatten_length_mod (cs : List (List Nat))
    (h : ∀ c ∈ cs, c.length = 16) : cs.flatten.length % 16 = 0 := by
  induction cs with
  | nil => simp
  | cons c rest ih =>
    have hc : c.length = 16 := h c (List.mem_cons_self c rest)
    have hr := ih (fun x hx => h x (List.mem_cons_of_mem c hx))
    simp only [List.flatten_cons, List.length_append, hc]
    omega

/-- Unpadding a byte list extended by a valid PKCS#7 tail restores it. -/
theorem pkcs7unpad_append_replicate (bs : List Nat) (k : Nat)
    (h1 : 1 ≤ k) (h16 : k ≤ 16) (hmod : (bs.length + k) % 16 = 0) :
    pkcs7unpad (bs ++ List.replicate k k) = some bs := by
  have hlen : (bs ++ List.replicate k k).length = bs.length + k := by simp
  obtain ⟨m, hm⟩ : ∃ m, k = m + 1 := ⟨k - 1, by omega⟩
  have hlast : (bs ++ List.replicate k k).getLast? = some k := by
    rw [hm, List.replicate_succ', ← List.append_assoc]
    exact List.getLast?_concat _
  have hgetd : (bs ++ List.replicate k k).getLast?.getD 0 = k := by
    rw [hlast]
    rfl
  have hsub : bs.length + k - k = bs.length := by omega
  have hdrop : (bs ++ List.replicate k k).drop (bs.length + k - k) =
      List.replicate k k := by
    rw [hsub]
    exact List.drop_left _ _
  have htake : (bs ++ List.replicate k k).take (bs.length + k - k) = bs := by
    rw [hsub]
    exact List.take_left _ _
  have hall : (List.replicate k k).all (fun b => b = k) = true := by
    simp [List.all_eq_true]
  unfold pkcs7unpad
  rw [hgetd, hlen, hdrop, htake]
  rw [if_pos ⟨hmod, by omega, h1, h16, hall⟩]

/-- Unpadding inverts PKCS#7 padding on every byte list. -/
theorem pkcs7unpad_pad (bs : List Nat) : pkcs7unpad (pkcs7pad bs) = some bs := by
  have hmod : bs.length % 16 < 16 := Nat.mod_lt _ (by omega)
  have h := pkcs7unpad_append_replicate bs (16 - bs.length % 16)
    (by omega) (by omega) (by omega)
  simpa [pkcs7pad] using h

/-- The AES stage of decryption inverts the AES stage of encryption
whenever the block primitives invert each other on 16-byte blocks. -/
theorem decryptBlob_encryptBlob (P : CipherPrimitives) (aesKey iv data : List Nat)
    (hLen : ∀ b, b.length = 16 → (P.blockEnc aesKey b).length = 16)
    (hInv : ∀ b, b.length = 16 → P.blockDec aesKey (P.blockEnc aesKey b) = b)
    (hiv : iv.length = 16) :
    decryptBlob P aesKey (encryptBlob P aesKey iv data) = some data := by
  have hblocks : ∀ b ∈ chunks16 (pkcs7pad data), b.length = 16 :=
    chunks16_block_length _ (pkcs7pad_length_mod data)
  have hcl : ∀ c ∈ cbcEnc (P.blockEnc aesKey) iv (chunks16 (pkcs7pad data)),
      c.length = 16 :=
    cbcEnc_block_length _ hLen _ iv hiv hblocks
  have htk : (iv ++ (cbcEnc (P.blockEnc aesKey) iv
      (chunks16 (pkcs7pad data))).flatten).take 16 = iv := by
    conv_lhs => rw [show (16 : Nat) = iv.length from hiv.symm]
    exact List.take_left _ _
  have hdr : (iv ++ (cbcEnc (P.blockEnc aesKey) iv
      (chunks16 (pkcs7pad data))).flatten).drop 16 =
      (cbcEnc (P.blockEnc aesKey) iv (chunks16 (pkcs7pad data))).flatten := by
    conv_lhs => rw [show (16 : Nat) = iv.length from hiv.symm]
    exact List.drop_left _ _
  unfold encryptBlob decryptBlob
  simp only [htk, hdr]
  rw [if_pos (flatten_length_mod _ hcl)]
  rw [chunks16_of_flatten _ hcl]
  rw [cbcDec_cbcEnc _ _ hLen hInv _ iv hiv hblocks]
  rw [chunks16_flatten]
  exact pkcs7unpad_pad data

/-- C1 (confirmed): for every byte sequence (empty and multi-block
included), encrypting with `encrypt_file` under a public key and then
decrypting the resulting ciphertext blob and wrapped-key blob with
`decrypt_file` under the matching private key yields exactly the original
bytes.  The external primitives are assumed to be what a correct AES /
RSA-OAEP library provides: the keyed block maps are mutually inverse
length-preserving permutations of 16-byte blocks, and unwrapping with the
matching private key inverts wrapping. -/
theorem encrypt_decrypt_roundtrip (P : CipherPrimitives)
    (hLen : ∀ k b, b.length = 16 → (P.blockEnc k b).length = 16)
    (hInv : ∀ k b, b.length = 16 → P.blockDec k (P.blockEnc k b) = b)
    (aesKey iv data : List Nat) (hiv : iv.length = 16)
    (hpair : ∀ w, P.rsaWrap aesKey = .ok w → P.rsaUnwrap w = .ok aesKey)
    (fs fs' : ArtifactFS) (out : Option (List Nat))
    (henc : encrypt_file P aesKey iv data fs = (fs', true)) :
    ∃ blob wkey, fs'.ciphertextBlob = some blob ∧
      fs'.wrappedKeyBlob = some wkey ∧
      decrypt_file P blob wkey out = (some data, true) := by
  unfold encrypt_file at henc
  cases hw : P.rsaWrap aesKey with
  | error e => rw [hw] at henc; simp at henc
  | ok w =>
    rw [hw] at henc
    simp only [Prod.mk.injEq] at henc
    obtain ⟨hfs, _⟩ := henc
    refine ⟨encryptBlob P aesKey iv data, w, ?_, ?_, ?_⟩
    · rw [← hfs]
    · rw [← hfs]
    · unfold decrypt_file
      rw [hpair w hw]
      simp [decryptBlob_encryptBlob P aesKey iv data (hLen aesKey) (hInv aesKey) hiv]

/-- Witness for C1: a 17-byte plaintext (more than one AES block)
round-trips through concrete mutually inverse primitives. -/
theorem encrypt_decrypt_roundtrip_witness :
    ∃ blob wkey,
      (encrypt_file ⟨fun _ b => b, fun _ b => b, fun kk => .ok kk, fun w => .ok w⟩
          (List.replicate 32 0) (List.replicate 16 0) (List.range 17)
          ⟨none, none⟩).1.ciphertextBlob = some blob ∧
        (encrypt_file ⟨fun _ b => b, fun _ b => b, fun kk => .ok kk, fun w => .ok w⟩
          (List.replicate 32 0) (List.replicate 16 0) (List.range 17)
          ⟨none, none⟩).1.wrappedKeyBlob = some wkey ∧
        decrypt_file ⟨fun _ b => b, fun _ b => b, fun kk => .ok kk, fun w => .ok w⟩
          blob wkey none = (some (List.range 17), true) :=
  encrypt_decrypt_roundtrip
    ⟨fun _ b => b, fun _ b => b, fun kk => .ok kk, fun w => .ok w⟩
    (fun _ _ h => h) (fun _ _ _ => rfl) (List.replicate 32 0)
    (List.replicate 16 0) (List.range 17) (by decide)
    (fun w hw => by cases hw; rfl) ⟨none, none⟩ _ none rfl

/-- C5 (counterexample): a failure of the RSA key-wrapping step (for
example a corrupt public-key file, which `ensure_rsa_keys` does not
detect) aborts `encrypt_file` after the ciphertext blob has already been
written, so a failed encrypt operation does leave an on-disk artifact of
the pair behind. -/
theorem encrypt_failure_leaves_ciphertext :
    (encrypt_file ⟨fun _ b => b, fun _ b => b, fun _ => .error (), fun _ => .error ()⟩
        (List.replicate 32 0) (List.replicate 16 0) [1] ⟨none, none⟩).2 = false ∧
      (encrypt_file ⟨fun _ b => b, fun _ b => b, fun _ => .error (), fun _ => .error ()⟩
        (List.replicate 32 0) (List.replicate 16 0) [1] ⟨none, none⟩).1.ciphertextBlob ≠
        none :=
  ⟨rfl, by decide⟩

/-- C5 (amended): decryption writes output bytes only after unpadding
succeeds (a failed decrypt leaves the output path untouched); encryption
writes the ciphertext blob only once it is fully computed in memory (the
written blob is always the complete `iv ++ ciphertext`, never a prefix);
but a failure of the key-wrapping step leaves the already-written
ciphertext blob behind — only the wrapped-key blob is guaranteed
untouched on a failed encrypt. -/
theorem crypto_failure_write_discipline :
    (∀ (P : CipherPrimitives) (blob wkey : List Nat) (out : Option (List Nat)),
      (decrypt_file P blob wkey out).2 = false →
      (decrypt_file P blob wkey out).1 = out) ∧
    (∀ (P : CipherPrimitives) (aesKey iv data : List Nat) (fs : ArtifactFS),
      (encrypt_file P aesKey iv data fs).1.ciphertextBlob =
        some (encryptBlob P aesKey iv data)) ∧
    (∀ (P : CipherPrimitives) (aesKey iv data : List Nat) (fs : ArtifactFS),
      (encrypt_file P aesKey iv data fs).2 = false →
      (encrypt_file P aesKey iv data fs).1.wrappedKeyBlob = fs.wrappedKeyBlob) := by
  refine ⟨?_, ?_, ?_⟩
  · intro P blob wkey out h
    unfold decrypt_file at h ⊢
    cases hu : P.rsaUnwrap wkey with
    | error e => rfl
    | ok k =>
      rw [hu] at h
      replace h : (match decryptBlob P k blob with
        | none => (out, false)
        | some d => ((some d : Option (List Nat)), true)).2 = false := h
      show (match decryptBlob P k blob with
        | none => (out, false)
        | some d => ((some d : Option (List Nat)), true)).1 = out
      cases hd : decryptBlob P k blob with
      | none => rfl
      | some d => rw [hd] at h; simp at h
  · intro P aesKey iv data fs
    unfold encrypt_file
    cases hw : P.rsaWrap aesKey <;> simp
  · intro P aesKey iv data fs h
    unfold encrypt_file at h ⊢
    cases hw : P.rsaWrap aesKey with
    | error e => rfl
    | ok w => rw [hw] at h; simp at h

/-- Witness for the amended C5 theorem: a decrypt whose key unwrap fails
leaves the previous output bytes in place. -/
theorem crypto_failure_write_discipline_witness :
    (decrypt_file ⟨fun _ b => b, fun _ b => b, fun _ => .error (), fun _ => .error ()⟩
        [1, 2] [3] (some [9])).1 = some [9] :=
  crypto_failure_write_discipline.1
    ⟨fun _ b => b, fun _ b => b, fun _ => .error (), fun _ => .error ()⟩
    [1, 2] [3] (some [9]) rfl

/-- C7 (confirmed): the wire format is fixed — every encrypt call writes
`iv (16 bytes) ++ AES-CBC(PKCS7-padded plaintext)` as the ciphertext
blob, draws an AES key of exactly 32 bytes, and persists as the
wrapped-key blob exactly the RSA-OAEP wrap of the raw AES key; and every
decrypt call splits the blob into its first 16 bytes as the IV and the
remainder as the ciphertext. -/
theorem wire_format_fixed :
    (∀ (P : CipherPrimitives) (rngKey rngIV : Nat → Nat) (data : List Nat)
      (fs : ArtifactFS),
      (encrypt_file_full P rngKey rngIV data fs).1.ciphertextBlob =
        some (token_bytes rngIV 16 ++
          (cbcEnc (P.blockEnc (token_bytes rngKey 32)) (token_bytes rngIV 16)
            (chunks16 (pkcs7pad data))).flatten) ∧
      (token_bytes rngKey 32).length = 32 ∧
      (token_bytes rngIV 16).length = 16) ∧
    (∀ (P : CipherPrimitives) (rngKey rngIV : Nat → Nat) (data : List Nat)
      (fs fs' : ArtifactFS),
      encrypt_file_full P rngKey rngIV data fs = (fs', true) →
      ∃ w, P.rsaWrap (token_bytes rngKey 32) = .ok w ∧
        fs'.wrappedKeyBlob = some w) ∧
    (∀ (P : CipherPrimitives) (aesKey iv ct : List Nat), iv.length = 16 →
      decryptBlob P aesKey (iv ++ ct) =
        if ct.length % 16 = 0 then
          pkcs7unpad ((cbcDec (P.blockDec aesKey) iv (chunks16 ct)).flatten)
        else none) := by
  refine ⟨?_, ?_, ?_⟩
  · intro P rngKey rngIV data fs
    refine ⟨?_, by simp [token_bytes], by simp [token_bytes]⟩
    unfold encrypt_file_full encrypt_file encryptBlob
    cases hw : P.rsaWrap (token_bytes rngKey 32) <;> simp
  · intro P rngKey rngIV data fs fs' h
    unfold encrypt_file_full encrypt_file at h
    cases hw : P.rsaWrap (token_bytes rngKey 32) with
    | error e => rw [hw] at h; simp at h
    | ok w =>
      rw [hw] at h
      simp only [Prod.mk.injEq] at h
      exact ⟨w, rfl, by rw [← h.1]⟩
  · intro P aesKey iv ct hiv
    have htk : (iv ++ ct).take 16 = iv := by
      conv_lhs => rw [show (16 : Nat) = iv.length from hiv.symm]
      exact List.take_left _ _
    have hdr : (iv ++ ct).drop 16 = ct := by
      conv_lhs => rw [show (16 : Nat) = iv.length from hiv.symm]
      exact List.drop_left _ _
    unfold decryptBlob
    simp only [htk, hdr]

/-- Witness for C7: the blob-splitting clause evaluated at a concrete
16-byte IV and one-block ciphertext. -/
theorem wire_format_fixed_witness :
    decryptBlob ⟨fun _ b => b, fun _ b => b, fun kk => .ok kk, fun w => .ok w⟩
        (List.replicate 32 0) (List.replicate 16 0 ++ List.replicate 16 1) =
      if (List.replicate 16 1).length % 16 = 0 then
        pkcs7unpad ((cbcDec
          ((⟨fun _ b => b, fun _ b => b, fun kk => .ok kk, fun w => .ok w⟩ :
            CipherPrimitives).blockDec (List.replicate 32 0))
          (List.replicate 16 0) (chunks16 (List.replicate 16 1))).flatten)
      else none :=
  wire_format_fixed.2.2
    ⟨fun _ b => b, fun _ b => b, fun kk => .ok kk, fun w => .ok w⟩
    (List.replicate 32 0) (List.replicate 16 0) (List.replicate 16 1)
    (by decide)

end CipherAI
